import Mathlib

/-!
Verification of the vertin CLI library core: the argument/flag parser
(packages/vertin/src/parser) and the command matcher
(packages/vertin/src/matcher.ts).

The embedding translates the TypeScript sources into executable Lean
definitions.  JavaScript records and Maps are modelled as association
lists with JS-faithful set/get semantics; resolvers are arbitrary host
functions and are therefore modelled symbolically (`JSVal.app`), which
preserves exactly which raw token was fed to which resolver.
-/

namespace Vertin

/-- Resolver of a parameter value.  The parser only ever inspects whether a
resolver is the built-in JavaScript `Boolean` constructor (checked with
`===` in `parseFlag`); every other resolver (function, constructor, or
chain) is opaque to it, so those are modelled by an identifier. -/
inductive Resolver where
  | boolean
  | custom (rid : Nat)
deriving DecidableEq

/-- JavaScript values that flow through the parser.  Resolution of a raw
token by an opaque host resolver is kept symbolic as `app`. -/
inductive JSVal where
  | undef
  | bool (b : Bool)
  | str (s : String)
  | num (n : Int)
  | app (r : Resolver) (raw : String)
  | arr (vs : List JSVal)

/-- Declared multiplicity of a positional argument: the sentinel string
`all` or a number (JavaScript numbers restricted to integers). -/
inductive CountDecl where
  | all
  | num (n : Int)
deriving DecidableEq

/-- Alias declaration of a flag: absent, a single string, or an array of
strings (parser/context.ts normalizes with `Array.isArray`). -/
inductive AliasDecl where
  | none
  | single (s : String)
  | many (ss : List String)
deriving DecidableEq

/-- JavaScript truthiness of an alias declaration, as tested by
`if (flagOpt.alias ...)`: `undefined` and the empty string are falsy,
arrays are always truthy. -/
def AliasDecl.truthy : AliasDecl → Bool
  | AliasDecl.none => false
  | AliasDecl.single s => !(s == "")
  | AliasDecl.many _ => true

/-- Flat list of alias names, mirroring
`Array.isArray(flagOpt.alias) ? flagOpt.alias : [flagOpt.alias]`. -/
def normalizeAlias : AliasDecl → List String
  | AliasDecl.none => []
  | AliasDecl.single s => [s]
  | AliasDecl.many ss => ss

/-- The `resolveUnknown` policy values (parser/types/options.ts). -/
inductive ResolveUnknown where
  | block
  | include
  | ignore
deriving DecidableEq

/-- Flag parameter option (parser/types/parameters.ts).  Optional fields
use `Option`/`Bool` so that an absent field behaves like `undefined`
(falsy, `!== undefined` fails). -/
structure FlagParameterOption where
  resolver : Resolver
  required : Bool
  default : Option JSVal
  «alias» : AliasDecl

/-- Positional argument parameter option (parser/types/parameters.ts). -/
structure ArgumentParameterOption where
  resolver : Resolver
  required : Bool
  default : Option JSVal
  count : Option CountDecl

/-- Parser configuration (parser/types/options.ts).  `arguments` and
`flags` are ordered records, modelled as association lists in
declaration order (`Object.entries`/`Object.keys` order). -/
structure ParserOption where
  resolveUnknown : Option ResolveUnknown
  resolveAlias : Option Bool
  resolveFlagAfterArgument : Option Bool
  arguments : Option (List (String × ArgumentParameterOption))
  flags : Option (List (String × FlagParameterOption))

/-- JS `Map.set` / record-field assignment: replace the value of an
existing key in place, otherwise append the binding at the end
(JS Maps and records have unique keys and preserve insertion order). -/
def mapSet {α : Type} (m : List (String × α)) (k : String) (v : α) : List (String × α) :=
  match m with
  | [] => [(k, v)]
  | p :: rest => if p.1 == k then (k, v) :: rest else p :: mapSet rest k v

/-- JS `Map.get` / record-field read: the value of the key when bound. -/
def mapGet {α : Type} (m : List (String × α)) (k : String) : Option α :=
  (m.find? (fun p => p.1 == k)).map (fun p => p.2)

/-- Reading a record field in JS yields `undefined` when the key is
absent; a stored `undefined` is indistinguishable from an absent key
under the `=== undefined` tests the parser performs. -/
def jsGet (m : List (String × JSVal)) (k : String) : JSVal :=
  (mapGet m k).getD JSVal.undef

/-- Whether a JS value is `undefined` (the `=== undefined` test). -/
def JSVal.isUndef : JSVal → Bool
  | JSVal.undef => true
  | _ => false

/-- Parser context (parser/context.ts and its successor in the package
index): the pre-processed lookup maps. -/
structure ParserContext where
  options : ParserOption
  flagLookup : List (String × String)
  flagDefaults : List (String × JSVal)
  argumentDefaults : List (String × JSVal)

/-- Names a flag registers into `flagLookup`: the canonical name, plus
(when alias resolution is not explicitly disabled and the alias
declaration is truthy) the normalized alias list — the `aliases` array
built by `createParserContext`. -/
def registeredNames (aliasEnabled : Bool) (p : String × FlagParameterOption) : List String :=
  p.1 :: (if aliasEnabled && p.2.«alias».truthy then normalizeAlias p.2.«alias» else [])

/-- One step of the flag loop of `createParserContext`: map every
registered name of the flag to its canonical name. -/
def registerFlag (aliasEnabled : Bool) (m : List (String × String))
    (p : String × FlagParameterOption) : List (String × String) :=
  (registeredNames aliasEnabled p).foldl (fun m a => mapSet m a p.1) m

/-- Default-recording step shared by the flag and the argument loop of
`createParserContext`: a declared default is always recorded; otherwise
an explicit `undefined` placeholder is recorded unless the parameter is
required. -/
def recordDefault (m : List (String × JSVal)) (name : String)
    (required : Bool) (dflt : Option JSVal) : List (String × JSVal) :=
  match dflt with
  | some d => mapSet m name d
  | Option.none => if required then m else mapSet m name JSVal.undef

/-- Translation of `createParserContext` (the current version of
parser/context.ts, the one that honours `resolveAlias`).  The single
`forEach` over the flags updates two independent maps; it is rendered as
two folds over the same entry list. -/
def createParserContext (options : ParserOption) : ParserContext :=
  let aliasEnabled := !(options.resolveAlias == some false)
  { options := options
    flagLookup := (options.flags.getD []).foldl (registerFlag aliasEnabled) []
    flagDefaults := (options.flags.getD []).foldl
      (fun m p => recordDefault m p.1 p.2.required p.2.default) []
    argumentDefaults := (options.arguments.getD []).foldl
      (fun m p => recordDefault m p.1 p.2.required p.2.default) [] }

/-- Internal parser state (parser/state.ts).  The `result` record is
flattened into its four fields. -/
structure ParserState where
  currentIndex : Nat
  currentArgIndex : Nat
  resultArguments : List (String × JSVal)
  resultFlags : List (String × JSVal)
  unknownFlags : List (String × String)
  unknownArguments : List String
  context : ParserContext

/-- Translation of `createInitialState` (parser/state.ts): cursors at
zero, result maps pre-populated from the context's default maps,
unknown buckets empty. -/
def createInitialState (context : ParserContext) : ParserState :=
  { currentIndex := 0
    currentArgIndex := 0
    resultArguments := context.argumentDefaults.foldl (fun m p => mapSet m p.1 p.2) []
    resultFlags := context.flagDefaults.foldl (fun m p => mapSet m p.1 p.2) []
    unknownFlags := []
    unknownArguments := []
    context := context }

/-- Translation of `isFlag` (parser/core.ts): a token is a flag iff it
starts with a dash (`token.startsWith('-')`), phrased on the character
list so that it evaluates inside the kernel. -/
def isFlag (token : String) : Bool :=
  match token.data with
  | '-' :: _ => true
  | _ => false

/-- Translation of `extractFlagName` (parser/core.ts): when the first
two characters are both dashes (`charCodeAt` 45) drop two characters
(`substring(2)`), otherwise drop one (`substring(1)`). -/
def extractFlagName (token : String) : String :=
  match token.data with
  | '-' :: '-' :: rest => String.mk rest
  | cs => String.mk (cs.drop 1)

/-- Translation of `resolveValue` (parser/core.ts).  Host resolvers are
arbitrary JavaScript functions/constructors/chains, so application is
kept symbolic; the model records which resolver received which raw
string, which is all the parser logic depends on. -/
def resolveValue (value : String) (resolver : Resolver) : JSVal :=
  JSVal.app resolver value

/-- Result record returned by a successful parse (the `result` field of
the final state, parser/state.ts). -/
structure ParsedResult where
  arguments : List (String × JSVal)
  flags : List (String × JSVal)
  unknownFlags : List (String × String)
  unknownArguments : List String

/-- Modelled from the spec: the unknown-flag `include` branch records the
stripped name into the unknown-flags bucket with the original token text
as value; the current implementation of that branch is missing from the
sources (an older snapshot of `parseFlag` in parser/core.ts predates the
bucket, while the unit tests in tests/parser/core.test.ts assert it and
parser/state.ts declares and initializes the bucket).  Every other
branch is a direct translation of `parseFlag` in parser/core.ts.
Error messages drop the quoting of the original, which no claim
depends on. -/
def parseFlag (st : ParserState) (argv : List String) : Except String ParserState :=
  let context := st.context
  let token := argv.getD st.currentIndex ""
  let flagName := extractFlagName token
  match mapGet context.flagLookup flagName with
  | Option.none =>
    match context.options.resolveUnknown with
    | some ResolveUnknown.block => Except.error ("Unknown flag: " ++ token)
    | some ResolveUnknown.include =>
        Except.ok { st with
          unknownFlags := mapSet st.unknownFlags flagName token
          currentIndex := st.currentIndex + 1 }
    | _ => Except.ok { st with currentIndex := st.currentIndex + 1 }
  | some mainFlagName =>
    match context.options.flags.bind (fun fs => mapGet fs mainFlagName) with
    | Option.none => Except.ok { st with currentIndex := st.currentIndex + 1 }
    | some flagOpt =>
      if flagOpt.resolver = Resolver.boolean then
        Except.ok { st with
          resultFlags := mapSet st.resultFlags mainFlagName (JSVal.bool true)
          currentIndex := st.currentIndex + 1 }
      else if argv.length ≤ st.currentIndex + 1 then
        Except.error ("Flag " ++ token ++ " requires a value")
      else
        Except.ok { st with
          resultFlags := mapSet st.resultFlags mainFlagName
            (resolveValue (argv.getD (st.currentIndex + 1) "") flagOpt.resolver)
          currentIndex := st.currentIndex + 2 }

/-- Effective multiplicity, mirroring `(argOpt as any).count || 1` in
parser/core.ts: an absent count and the (falsy) number zero both mean
one. -/
def effectiveCount : Option CountDecl → CountDecl
  | Option.none => CountDecl.num 1
  | some CountDecl.all => CountDecl.all
  | some (CountDecl.num n) => if n = 0 then CountDecl.num 1 else CountDecl.num n

/-- Value-collection loop of `parseArgument` (parser/core.ts):
`for (let j = 0; j < count && newIndex < argv.length; j++)` pushing the
resolved token and advancing `newIndex`. -/
def collectLoop (argv : List String) (resolver : Resolver) (count : Int)
    (j : Int) (newIndex : Nat) (acc : List JSVal) : List JSVal × Nat :=
  if h : j < count ∧ newIndex < argv.length then
    collectLoop argv resolver count (j + 1) (newIndex + 1)
      (acc ++ [resolveValue (argv.getD newIndex "") resolver])
  else (acc, newIndex)
termination_by argv.length - newIndex
decreasing_by
  have := h.2
  omega

/-- Modelled from the spec: the excess-argument `include` branch appends
the raw token to the unknown-arguments list; in the sources that branch
is an empty TODO inside `parseArgument` (parser/core.ts), while the unit
tests in tests/parser/core.test.ts assert the appending behaviour and
parser/state.ts declares and initializes the list.  Every other branch
is a direct translation of `parseArgument` in parser/core.ts. -/
def parseArgument (st : ParserState) (argv : List String) : Except String ParserState :=
  let context := st.context
  let args := context.options.arguments.getD []
  if h : context.options.arguments.isNone ∨ args.length ≤ st.currentArgIndex then
    match context.options.resolveUnknown with
    | some ResolveUnknown.block =>
        Except.error ("Unexpected argument: " ++ argv.getD st.currentIndex "")
    | some ResolveUnknown.include =>
        Except.ok { st with
          unknownArguments := st.unknownArguments ++ [argv.getD st.currentIndex ""]
          currentIndex := st.currentIndex + 1 }
    | _ => Except.ok { st with currentIndex := st.currentIndex + 1 }
  else
    have hlt : st.currentArgIndex < args.length :=
      Nat.lt_of_not_le (fun hh => h (Or.inr hh))
    let p := args.get ⟨st.currentArgIndex, hlt⟩
    match effectiveCount p.2.count with
    | CountDecl.all =>
        Except.ok { st with
          resultArguments := mapSet st.resultArguments p.1
            (JSVal.arr ((argv.drop st.currentIndex).map (fun a => resolveValue a p.2.resolver)))
          currentIndex := argv.length }
    | CountDecl.num n =>
        let r := collectLoop argv p.2.resolver n 0 st.currentIndex []
        Except.ok { st with
          resultArguments := mapSet st.resultArguments p.1
            (if n = 1 then r.1.headD JSVal.undef else JSVal.arr r.1)
          currentIndex := r.2
          currentArgIndex := st.currentArgIndex + 1 }

/-- Translation of `validateRequiredParameters` (parser/core.ts): the
`forEach` loops throw at the first required parameter whose result entry
is still `undefined`, arguments before flags, in declaration order. -/
def validateRequiredParameters (st : ParserState) : Except String Unit :=
  match (st.context.options.arguments.getD []).find?
      (fun p => p.2.required && (jsGet st.resultArguments p.1).isUndef) with
  | some p => Except.error ("Required argument " ++ p.1 ++ " is missing")
  | Option.none =>
    match (st.context.options.flags.getD []).find?
        (fun p => p.2.required && (jsGet st.resultFlags p.1).isUndef) with
    | some p => Except.error ("Required flag " ++ p.1 ++ " is missing")
    | Option.none => Except.ok ()

/-- Outcome of a whole parse.  The TypeScript `while` loop carries no
fuel; the embedding makes the loop structurally recursive on an explicit
fuel and marks exhaustion with a distinguished outcome, so that
termination becomes a provable statement rather than an assumption. -/
inductive ParseOutcome where
  | ok (result : ParsedResult)
  | error (msg : String)
  | outOfFuel

/-- Final result extracted from a parser state. -/
def resultOf (st : ParserState) : ParsedResult :=
  { arguments := st.resultArguments
    flags := st.resultFlags
    unknownFlags := st.unknownFlags
    unknownArguments := st.unknownArguments }

/-- Translation of the `while` loop of `_parse` (the current version in
the package index, the one that gates flags behind
`resolveFlagAfterArgument`): classify the current token, route it to
`parseFlag` or `parseArgument`, remember whether an argument token was
ever consumed, and validate required parameters once the cursor reaches
the end. -/
def parseLoop (argv : List String) (fuel : Nat) (st : ParserState)
    (hasEncounteredArguments : Bool) : ParseOutcome :=
  if st.currentIndex < argv.length then
    match fuel with
    | 0 => ParseOutcome.outOfFuel
    | fuel' + 1 =>
      let token := argv.getD st.currentIndex ""
      if isFlag token then
        if hasEncounteredArguments = false ∨
            st.context.options.resolveFlagAfterArgument ≠ some false then
          match parseFlag st argv with
          | Except.ok st' => parseLoop argv fuel' st' hasEncounteredArguments
          | Except.error e => ParseOutcome.error e
        else
          ParseOutcome.error ("Flag " ++ token ++ " cannot appear after arguments")
      else
        match parseArgument st argv with
        | Except.ok st' => parseLoop argv fuel' st' true
        | Except.error e => ParseOutcome.error e
  else
    match validateRequiredParameters st with
    | Except.ok _ => ParseOutcome.ok (resultOf st)
    | Except.error e => ParseOutcome.error e

/-- Translation of `_parse`.  The fuel dominates the loop's
lexicographic termination measure (tokens left, positional slots left),
so a faithful run can never exhaust it; claim C9 proves the cursor-only
bound under the spec's positive-count hypothesis. -/
def _parse (argv : List String) (context : ParserContext) : ParseOutcome :=
  parseLoop argv (argv.length + (context.options.arguments.getD []).length + 1)
    (createInitialState context) false

/-- Command node (types/command.ts), restricted to the two fields the
matcher reads: the execution name `exec.name` and the optional
subcommand list (absent and empty are indistinguishable to the matcher,
which tests `subCommands && subCommands.length > 0`).  Metadata,
parameter specs and the handler play no role in matching. -/
inductive Command where
  | mk (execName : String) (subCommands : List Command)

/-- Execution name of a command node. -/
def Command.execName : Command → String
  | Command.mk n _ => n

/-- Subcommand list of a command node. -/
def Command.subCommands : Command → List Command
  | Command.mk _ s => s

/-- Result of a command-matching operation (matcher.ts). -/
structure CommandMatchState where
  command : Option Command
  remainingArgs : List String
  matchedPath : List String

/-- Translation of `DFSMatch` (matcher.ts): first node in declaration
order whose execution name equals the current token wins; a hit recurses
into a non-empty subcommand list at the next index and prefers the
deeper match. -/
def DFSMatch (argv : List String) (currentLevelCommands : List Command)
    (index : Nat) (path : List String) : CommandMatchState :=
  if argv.length ≤ index then
    { command := Option.none, remainingArgs := [], matchedPath := path }
  else
    match currentLevelCommands with
    | [] => { command := Option.none, remainingArgs := argv.drop index, matchedPath := path }
    | Command.mk name subs :: rest =>
      let token := argv.getD index ""
      if name == token then
        let newPath := path ++ [token]
        if subs.isEmpty then
          { command := some (Command.mk name subs)
            remainingArgs := argv.drop (index + 1)
            matchedPath := newPath }
        else
          let result := DFSMatch argv subs (index + 1) newPath
          if result.command.isSome then result
          else
            { command := some (Command.mk name subs)
              remainingArgs := argv.drop (index + 1)
              matchedPath := newPath }
      else DFSMatch argv rest index path
termination_by sizeOf currentLevelCommands
decreasing_by
  all_goals simp
  omega

/-- Translation of `matchCommands` (matcher.ts). -/
def matchCommands (argv : List String) (topLevelCommands : List Command)
    (rootCommand : Option Command) (startIndex : Nat) : Except String CommandMatchState :=
  if topLevelCommands.length = 0 ∧ rootCommand.isNone then
    Except.error "No commands available for matching"
  else if topLevelCommands.length = 0 then
    Except.ok { command := rootCommand, remainingArgs := argv.drop startIndex, matchedPath := [] }
  else
    let result := DFSMatch argv topLevelCommands startIndex []
    if result.command.isNone ∧ rootCommand.isSome then
      Except.ok { command := rootCommand, remainingArgs := argv.drop startIndex, matchedPath := [] }
    else Except.ok result

/-- Specification-side description of `flagLookup` (used by claim C4):
a key resolves to the canonical name of the last flag in declaration
order that registers it, where a flag registers its canonical name and —
only when `resolveAlias` is not explicitly `false` — its aliases. -/
def flagLookupSpec (options : ParserOption) (k : String) : Option String :=
  ((options.flags.getD []).reverse.find?
      (fun p => (registeredNames (!(options.resolveAlias == some false)) p).contains k)).map
    (fun p => p.1)

/-- Specification-side default entry of a single parameter (used by
claim C5): the declared default when there is one, the `undefined`
placeholder for a non-required parameter without one, and no entry for a
required parameter without one. -/
def defaultEntrySpec (required : Bool) (dflt : Option JSVal) : Option JSVal :=
  match dflt with
  | some d => some d
  | Option.none => if required then Option.none else some JSVal.undef

/-- Whether an effective multiplicity is the sentinel or a positive
number. -/
def countPositive : CountDecl → Bool
  | CountDecl.all => true
  | CountDecl.num n => decide (0 < n)

/-- Hypothesis of claim C9: every declared positional multiplicity is a
positive integer or the sentinel. -/
def positiveCounts (context : ParserContext) : Prop :=
  ∀ p ∈ context.options.arguments.getD [],
    countPositive (effectiveCount (ArgumentParameterOption.count p.2)) = true

/-- Concrete configuration used by witnesses: one positional argument
and two boolean flags, flags forbidden after arguments, unknown tokens
included. -/
def wOpts : ParserOption :=
  { resolveUnknown := some ResolveUnknown.include
    resolveAlias := Option.none
    resolveFlagAfterArgument := some false
    arguments := some [("input", { resolver := Resolver.custom 1, required := false
                                   default := Option.none, count := Option.none })]
    flags := some [("verbose", { resolver := Resolver.boolean, required := false
                                 default := Option.none, «alias» := AliasDecl.single "v" }),
                   ("config", { resolver := Resolver.custom 2, required := false
                                default := Option.none, «alias» := AliasDecl.none })] }

/-- Context built from the witness configuration. -/
def wCtx : ParserContext := createParserContext wOpts

/-- Witness parser state: one argument token already consumed. -/
def wState : ParserState :=
  { createInitialState wCtx with currentIndex := 1 }

/-- Configuration exhibiting a required flag with a declared default
(used against claim C5). -/
def c5Opts : ParserOption :=
  { resolveUnknown := Option.none
    resolveAlias := Option.none
    resolveFlagAfterArgument := Option.none
    arguments := Option.none
    flags := some [("config", { resolver := Resolver.custom 0, required := true
                                default := some (JSVal.str "fallback")
                                «alias» := AliasDecl.none })] }

/-- Command fixture: build with a watch subcommand, plus a root
fallback. -/
def watchCmd : Command := Command.mk "watch" []

/-- Command fixture: top-level build command owning `watchCmd`. -/
def buildCmd : Command := Command.mk "build" [watchCmd]

/-- Command fixture: root fallback command. -/
def rootCmd : Command := Command.mk "__root__" []

/-- Witness parser state for excess arguments: the single declared
positional slot is already filled. -/
def wStateFull : ParserState :=
  { createInitialState wCtx with currentIndex := 1, currentArgIndex := 1 }

/-- Positional option with multiplicity two, used by the C8 witness. -/
def c8ArgOpt : ArgumentParameterOption :=
  { resolver := Resolver.custom 3, required := false
    default := Option.none, count := some (CountDecl.num 2) }

/-- Configuration with a single two-token positional parameter. -/
def c8Opts : ParserOption :=
  { resolveUnknown := Option.none
    resolveAlias := Option.none
    resolveFlagAfterArgument := Option.none
    arguments := some [("files", c8ArgOpt)]
    flags := Option.none }

/-- Initial state over the C8 configuration. -/
def c8State : ParserState := createInitialState (createParserContext c8Opts)

/-- Reading a map after writing one key: the written key returns the new
value, every other key is unaffected. -/
theorem mapGet_mapSet {α : Type} (m : List (String × α)) (k k' : String) (v : α) :
    mapGet (mapSet m k v) k' = if k' = k then some v else mapGet m k' := by
  induction m with
  | nil =>
      rcases eq_or_ne k' k with h | h
      · subst h; simp [mapSet, mapGet, List.find?]
      · have hb : (k == k') = false := beq_eq_false_iff_ne.mpr (Ne.symm h)
        simp [mapSet, mapGet, List.find?, hb, h]
  | cons p rest ih =>
      rcases eq_or_ne p.1 k with hpk | hpk
      · have hb : (p.1 == k) = true := beq_iff_eq.mpr hpk
        rcases eq_or_ne k' k with h | h
        · subst h
          simp [mapSet, mapGet, hb, List.find?]
        · have hb2 : (k == k') = false := beq_eq_false_iff_ne.mpr (Ne.symm h)
          have hb3 : (p.1 == k') = false := beq_eq_false_iff_ne.mpr (hpk ▸ Ne.symm h)
          simp [mapSet, mapGet, hb, hb2, hb3, List.find?, h]
      · have hb : (p.1 == k) = false := beq_eq_false_iff_ne.mpr hpk
        rcases eq_or_ne p.1 k' with hpk' | hpk'
        · have h : k' ≠ k := fun hh => hpk (hh ▸ hpk')
          have hb2 : (p.1 == k') = true := beq_iff_eq.mpr hpk'
          simp [mapSet, mapGet, hb, hb2, List.find?, h]
        · have hb2 : (p.1 == k') = false := beq_eq_false_iff_ne.mpr hpk'
          simpa [mapSet, mapGet, hb, hb2, List.find?] using ih

/-- C2: for a flag token whose stripped name has no entry in the
context's `flagLookup`, the `block` policy fails with an unknown-flag
error naming the token, the `include` policy records the stripped name
in the unknown-flags bucket with the original token text as value and
leaves the known-flags map unchanged, the `ignore` policy records
nothing, and in the non-failing cases the cursor advances by exactly one
token. -/
theorem C2_unknown_flag_policy
    (st : ParserState) (argv : List String) (token : String)
    (htok : argv.getD st.currentIndex "" = token)
    (hflag : isFlag token = true)
    (hunk : mapGet st.context.flagLookup (extractFlagName token) = Option.none) :
    (st.context.options.resolveUnknown = some ResolveUnknown.block →
        parseFlag st argv = Except.error ("Unknown flag: " ++ token))
  ∧ (st.context.options.resolveUnknown = some ResolveUnknown.include →
        parseFlag st argv = Except.ok { st with
          unknownFlags := mapSet st.unknownFlags (extractFlagName token) token
          currentIndex := st.currentIndex + 1 })
  ∧ (st.context.options.resolveUnknown = some ResolveUnknown.ignore →
        parseFlag st argv = Except.ok { st with currentIndex := st.currentIndex + 1 }) := by
  refine ⟨fun hru => ?_, fun hru => ?_, fun hru => ?_⟩ <;>
  · simp only [parseFlag]
    rw [htok]
    simp only [hunk, hru]

/-- C2 witness: with policy `include`, the unknown token `--unknown` is
recorded in the bucket under its stripped name and the cursor moves from
1 to 2. -/
theorem C2_unknown_flag_policy_witness :
    parseFlag wState ["file.txt", "--unknown"] = Except.ok { wState with
      unknownFlags := mapSet wState.unknownFlags (extractFlagName "--unknown") "--unknown"
      currentIndex := wState.currentIndex + 1 } :=
  (C2_unknown_flag_policy wState ["file.txt", "--unknown"] "--unknown" rfl (by decide)
    (by decide)).2.1 rfl

/-- C3: for an argument token arriving when every declared positional
slot is already filled (argument cursor at or past the number of
declared positional names, or none declared), the `block` policy fails
naming the token, the `include` policy appends the raw token to the
unknown-arguments list, the `ignore` policy records nothing, and the
cursor advances by one token in the non-failing cases. -/
theorem C3_excess_argument_policy
    (st : ParserState) (argv : List String) (token : String)
    (htok : argv.getD st.currentIndex "" = token)
    (hexcess : st.context.options.arguments.isNone ∨
      (st.context.options.arguments.getD []).length ≤ st.currentArgIndex) :
    (st.context.options.resolveUnknown = some ResolveUnknown.block →
        parseArgument st argv = Except.error ("Unexpected argument: " ++ token))
  ∧ (st.context.options.resolveUnknown = some ResolveUnknown.include →
        parseArgument st argv = Except.ok { st with
          unknownArguments := st.unknownArguments ++ [token]
          currentIndex := st.currentIndex + 1 })
  ∧ (st.context.options.resolveUnknown = some ResolveUnknown.ignore →
        parseArgument st argv = Except.ok { st with currentIndex := st.currentIndex + 1 }) := by
  refine ⟨fun hru => ?_, fun hru => ?_, fun hru => ?_⟩ <;>
  · simp only [parseArgument]
    rw [dif_pos hexcess, htok]
    simp only [hru]

/-- C3 witness: with policy `include` and the single positional slot
filled, the excess token `excess.txt` is appended to the
unknown-arguments list and the cursor moves from 1 to 2. -/
theorem C3_excess_argument_policy_witness :
    parseArgument wStateFull ["file.txt", "excess.txt"] = Except.ok { wStateFull with
      unknownArguments := wStateFull.unknownArguments ++ ["excess.txt"]
      currentIndex := wStateFull.currentIndex + 1 } :=
  (C3_excess_argument_policy wStateFull ["file.txt", "excess.txt"] "excess.txt" rfl
    (by decide)).2.1 rfl

/-- C10: a known non-boolean flag that is not the last token always
consumes the immediately following token as its value — that token is
fed to the flag's resolver without being reclassified, even when it
begins with a dash — and the cursor advances by two. -/
theorem C10_nonboolean_flag_value
    (st : ParserState) (argv : List String) (token mainFlagName : String)
    (flagOpt : FlagParameterOption)
    (htok : argv.getD st.currentIndex "" = token)
    (hlook : mapGet st.context.flagLookup (extractFlagName token) = some mainFlagName)
    (hopt : st.context.options.flags.bind (fun fs => mapGet fs mainFlagName) = some flagOpt)
    (hres : flagOpt.resolver ≠ Resolver.boolean)
    (hnext : st.currentIndex + 1 < argv.length) :
    parseFlag st argv = Except.ok { st with
      resultFlags := mapSet st.resultFlags mainFlagName
        (resolveValue (argv.getD (st.currentIndex + 1) "") flagOpt.resolver)
      currentIndex := st.currentIndex + 2 } := by
  simp only [parseFlag]
  rw [htok]
  simp only [hlook, hopt]
  rw [if_neg hres, if_neg (by omega : ¬ argv.length ≤ st.currentIndex + 1)]

/-- C10 witness: the value of `--config` is the dash-leading token
`--weird`, consumed as a value rather than reclassified as a flag. -/
theorem C10_nonboolean_flag_value_witness :
    parseFlag (createInitialState wCtx) ["--config", "--weird"] =
      Except.ok { createInitialState wCtx with
        resultFlags := mapSet (createInitialState wCtx).resultFlags "config"
          (resolveValue (["--config", "--weird"].getD ((createInitialState wCtx).currentIndex + 1) "")
            (Resolver.custom 2))
        currentIndex := (createInitialState wCtx).currentIndex + 2 } :=
  C10_nonboolean_flag_value (createInitialState wCtx) ["--config", "--weird"] "--config" "config"
    { resolver := Resolver.custom 2, required := false
      default := Option.none, «alias» := AliasDecl.none }
    rfl (by decide) rfl (by decide) (by decide)

/-- C1: when a flag token is reached after an argument token has been
consumed and `resolveFlagAfterArgument` is explicitly `false`, the loop
fails with the structural-order error before any flag resolution and for
every configuration (in particular regardless of `resolveUnknown`);
when the switch is unset or `true`, or no argument has been consumed
yet, the flag token is handed to `parseFlag` and parsed normally. -/
theorem C1_flag_after_argument_gating
    (argv : List String) (st : ParserState) (hasArgs : Bool) (fuel : Nat)
    (hcur : st.currentIndex < argv.length)
    (hflag : isFlag (argv.getD st.currentIndex "") = true) :
    (hasArgs = true → st.context.options.resolveFlagAfterArgument = some false →
        parseLoop argv (fuel + 1) st hasArgs =
          ParseOutcome.error ("Flag " ++ argv.getD st.currentIndex "" ++
            " cannot appear after arguments"))
  ∧ (st.context.options.resolveFlagAfterArgument ≠ some false →
        parseLoop argv (fuel + 1) st hasArgs =
          match parseFlag st argv with
          | Except.ok st' => parseLoop argv fuel st' hasArgs
          | Except.error e => ParseOutcome.error e)
  ∧ (hasArgs = false →
        parseLoop argv (fuel + 1) st hasArgs =
          match parseFlag st argv with
          | Except.ok st' => parseLoop argv fuel st' hasArgs
          | Except.error e => ParseOutcome.error e) := by
  have hflag' : isFlag (argv[st.currentIndex]?.getD "") = true := by simpa using hflag
  refine ⟨fun hA hrfaa => ?_, fun hrfaa => ?_, fun hA => ?_⟩
  · subst hA
    rw [parseLoop, if_pos hcur]
    simp [hflag', hrfaa]
  · rw [parseLoop, if_pos hcur]
    simp [hflag', hrfaa]
  · subst hA
    rw [parseLoop, if_pos hcur]
    simp [hflag']

/-- C1 witness: scenario 5 — after consuming `file.txt`, the flag
`--verbose` fails with the structural-order error even though the
unknown policy is `include`. -/
theorem C1_flag_after_argument_gating_witness :
    parseLoop ["file.txt", "--verbose"] 2 wState true =
      ParseOutcome.error ("Flag " ++ ["file.txt", "--verbose"].getD wState.currentIndex "" ++
        " cannot appear after arguments") :=
  (C1_flag_after_argument_gating ["file.txt", "--verbose"] wState true 1 (by decide)
    (by decide)).1 rfl rfl

/-- C6: the depth-first match selects the first node in declaration
order whose execution name equals the current token; on a hit it
recurses into a non-empty subcommand list at the next index and prefers
the deeper match, otherwise it returns the current node with the
remaining tokens and the extended path; with no name hit it returns no
command and the tokens from the current index onward. -/
theorem C6_dfs_first_match
    (argv : List String) (index : Nat) (path : List String)
    (hidx : index < argv.length) (cmds : List Command) :
    ((cmds.find? (fun c => c.execName == argv.getD index "")).isNone →
        DFSMatch argv cmds index path =
          { command := Option.none, remainingArgs := argv.drop index, matchedPath := path })
  ∧ (∀ c, cmds.find? (fun c => c.execName == argv.getD index "") = some c →
        DFSMatch argv cmds index path =
          (if c.subCommands.isEmpty then
            { command := some c, remainingArgs := argv.drop (index + 1)
              matchedPath := path ++ [argv.getD index ""] }
           else if (DFSMatch argv c.subCommands (index + 1)
               (path ++ [argv.getD index ""])).command.isSome then
             DFSMatch argv c.subCommands (index + 1) (path ++ [argv.getD index ""])
           else
            { command := some c, remainingArgs := argv.drop (index + 1)
              matchedPath := path ++ [argv.getD index ""] })) := by
  induction cmds with
  | nil =>
      constructor
      · intro _
        rw [DFSMatch, if_neg (by omega)]
      · intro c hc
        simp [List.find?] at hc
  | cons c0 rest ih =>
      obtain ⟨name, subs⟩ := c0
      cases hb : ((Command.mk name subs).execName == argv.getD index "") with
      | true =>
          constructor
          · intro hnone
            simp only [List.find?, hb] at hnone
            simp at hnone
          · intro c hc
            simp only [List.find?, hb] at hc
            cases hc
            rw [DFSMatch, if_neg (by omega)]
            simp only [Command.execName] at hb
            have hb' : (name == argv[index]?.getD "") = true := by simpa using hb
            simp [hb, hb', Command.subCommands]
      | false =>
          constructor
          · intro hnone
            simp only [List.find?, hb] at hnone
            rw [DFSMatch, if_neg (by omega)]
            simp only [Command.execName] at hb
            simp only [hb]
            exact ih.1 hnone
          · intro c hc
            simp only [List.find?, hb] at hc
            rw [DFSMatch, if_neg (by omega)]
            simp only [Command.execName] at hb
            simp only [hb]
            exact ih.2 c hc

/-- C6 witness: end-to-end scenario 4 — `build watch x.txt` matches the
deeper `watch` node; the witness instantiates the name-hit case of the
characterization at the top level. -/
theorem C6_dfs_first_match_witness :
    DFSMatch ["build", "watch", "x.txt"] [buildCmd] 0 [] =
      (if buildCmd.subCommands.isEmpty then
        { command := some buildCmd, remainingArgs := ["build", "watch", "x.txt"].drop 1
          matchedPath := [] ++ [["build", "watch", "x.txt"].getD 0 ""] }
       else if (DFSMatch ["build", "watch", "x.txt"] buildCmd.subCommands 1
           ([] ++ [["build", "watch", "x.txt"].getD 0 ""])).command.isSome then
         DFSMatch ["build", "watch", "x.txt"] buildCmd.subCommands 1
           ([] ++ [["build", "watch", "x.txt"].getD 0 ""])
       else
        { command := some buildCmd, remainingArgs := ["build", "watch", "x.txt"].drop 1
          matchedPath := [] ++ [["build", "watch", "x.txt"].getD 0 ""] }) :=
  (C6_dfs_first_match ["build", "watch", "x.txt"] 0 [] (by decide) [buildCmd]).2 buildCmd rfl

/-- C7: `matchCommands` raises the configuration error exactly when the
top-level list is empty and no root command exists; with an empty list
and a root it returns the root with the tokens from the start index and
an empty path; when the walk finds nothing and a root exists it falls
back to the root the same way, discarding the walk's partial path; when
the walk finds nothing and there is no root it returns the walk's
no-command result without throwing. -/
theorem C7_matchCommands_fallback
    (argv : List String) (top : List Command) (root : Option Command) (si : Nat) :
    (matchCommands argv top root si = Except.error "No commands available for matching" ↔
        (top = [] ∧ root = Option.none))
  ∧ (∀ rc, root = some rc → top = [] →
        matchCommands argv top root si =
          Except.ok { command := some rc, remainingArgs := argv.drop si, matchedPath := [] })
  ∧ (∀ rc, root = some rc → (DFSMatch argv top si []).command = Option.none →
        matchCommands argv top root si =
          Except.ok { command := some rc, remainingArgs := argv.drop si, matchedPath := [] })
  ∧ (top ≠ [] → root = Option.none → (DFSMatch argv top si []).command = Option.none →
        matchCommands argv top root si = Except.ok (DFSMatch argv top si [])) := by
  refine ⟨⟨fun herr => ?_, fun hcase => ?_⟩, fun rc hrc htop => ?_, fun rc hrc hdfs => ?_,
    fun htop hroot hdfs => ?_⟩
  · by_cases hc : top.length = 0 ∧ root.isNone
    · exact ⟨List.length_eq_zero.mp hc.1, Option.isNone_iff_eq_none.mp hc.2⟩
    · rw [matchCommands, if_neg hc] at herr
      by_cases hlen : top.length = 0
      · rw [if_pos hlen] at herr
        cases herr
      · rw [if_neg hlen] at herr
        dsimp only at herr
        split at herr <;> cases herr
  · obtain ⟨h1, h2⟩ := hcase
    subst h1; subst h2
    rw [matchCommands]
    simp
  · subst hrc; subst htop
    rw [matchCommands]
    simp
  · subst hrc
    rw [matchCommands, if_neg (by simp)]
    by_cases hlen : top.length = 0
    · rw [if_pos hlen]
    · rw [if_neg hlen]
      dsimp only
      rw [if_pos ⟨by simp [hdfs], by simp⟩]
  · subst hroot
    have hlen : ¬ top.length = 0 := fun hh => htop (List.length_eq_zero.mp hh)
    rw [matchCommands, if_neg (by simp [hlen]), if_neg hlen]
    dsimp only
    rw [if_neg (by simp)]

/-- C7 witness: with a non-matching token, a top-level command list and
a root command, the matcher falls back to the root with all tokens from
the start index and an empty path. -/
theorem C7_matchCommands_fallback_witness :
    matchCommands ["zzz"] [buildCmd] (some rootCmd) 0 =
      Except.ok { command := some rootCmd, remainingArgs := ["zzz"].drop 0, matchedPath := [] } :=
  (C7_matchCommands_fallback ["zzz"] [buildCmd] (some rootCmd) 0).2.2.1 rootCmd rfl
    (by simp [DFSMatch, buildCmd])

/-- Writing one value under every key of a list: a key reads back the
value exactly when it occurs in the list. -/
theorem mapGet_foldl_mapSet_const (v : String) (ns : List String)
    (m : List (String × String)) (k : String) :
    mapGet (ns.foldl (fun m a => mapSet m a v) m) k =
      if ns.contains k then some v else mapGet m k := by
  induction ns generalizing m with
  | nil => simp
  | cons a ns ih =>
      rw [List.foldl_cons, ih]
      by_cases hc : k ∈ ns
      · simp [hc, List.contains_cons]
      · by_cases hka : k = a
        · subst hka
          simp [hc, mapGet_mapSet, List.contains_cons]
        · simp [hc, hka, mapGet_mapSet, List.contains_cons]

/-- Reading the lookup map after registering one flag. -/
theorem mapGet_registerFlag (aliasEnabled : Bool) (m : List (String × String))
    (p : String × FlagParameterOption) (k : String) :
    mapGet (registerFlag aliasEnabled m p) k =
      if (registeredNames aliasEnabled p).contains k then some p.1 else mapGet m k := by
  rw [registerFlag]
  exact mapGet_foldl_mapSet_const p.1 (registeredNames aliasEnabled p) m k

/-- Reading the lookup map built by the flag loop: the canonical name of
the last flag in declaration order that registers the key wins. -/
theorem mapGet_flagLookup_fold (aliasEnabled : Bool)
    (l : List (String × FlagParameterOption)) (m : List (String × String)) (k : String) :
    mapGet (l.foldl (registerFlag aliasEnabled) m) k =
      match l.reverse.find? (fun p => (registeredNames aliasEnabled p).contains k) with
      | some p => some p.1
      | Option.none => mapGet m k := by
  induction l generalizing m with
  | nil => simp
  | cons p rest ih =>
      rw [List.foldl_cons, ih, List.reverse_cons, List.find?_append]
      cases hf : rest.reverse.find? (fun p => (registeredNames aliasEnabled p).contains k) with
      | some q => simp [Option.orElse]
      | none =>
          by_cases hp : k ∈ registeredNames aliasEnabled p
          · simp [Option.orElse, List.find?, hp, mapGet_registerFlag]
          · simp [Option.orElse, List.find?, hp, mapGet_registerFlag]

/-- C4: building the context registers a flag's aliases in `flagLookup`
(each mapping to the canonical name) exactly when `resolveAlias` is
unset or `true`; when it is explicitly `false` only canonical names are
registered, so the lookup then succeeds precisely on canonical names —
alias tokens miss and are treated as unknown flags during parsing. -/
theorem C4_alias_registration (options : ParserOption) :
    (∀ k, mapGet (createParserContext options).flagLookup k = flagLookupSpec options k)
  ∧ (options.resolveAlias = some false →
      ∀ k v, mapGet (createParserContext options).flagLookup k = some v ↔
        (v = k ∧ k ∈ (options.flags.getD []).map Prod.fst)) := by
  have hmain : ∀ k, mapGet (createParserContext options).flagLookup k = flagLookupSpec options k := by
    intro k
    show mapGet ((options.flags.getD []).foldl
      (registerFlag (!(options.resolveAlias == some false))) []) k = _
    rw [mapGet_flagLookup_fold, flagLookupSpec]
    cases hf : (options.flags.getD []).reverse.find?
        (fun p => (registeredNames (!(options.resolveAlias == some false)) p).contains k) with
    | some q => simp
    | none => simp [mapGet]
  refine ⟨hmain, fun hra k v => ?_⟩
  rw [hmain k, flagLookupSpec, hra]
  have hreg : ∀ p : String × FlagParameterOption,
      registeredNames (!((some false : Option Bool) == some false)) p = [p.1] := by
    intro p
    simp [registeredNames]
  constructor
  · intro h
    rcases Option.map_eq_some'.mp h with ⟨q, hq, hqv⟩
    have hpred := List.find?_some hq
    have hmem := List.mem_of_find?_eq_some hq
    rw [hreg] at hpred
    simp [List.contains_cons] at hpred
    subst hpred
    refine ⟨hqv.symm, ?_⟩
    exact List.mem_map_of_mem Prod.fst (List.mem_reverse.mp hmem)
  · rintro ⟨rfl, hk⟩
    rcases List.mem_map.mp hk with ⟨q, hq, hq1⟩
    have hsome : ((options.flags.getD []).reverse.find?
        (fun p => (registeredNames (!((some false : Option Bool) == some false)) p).contains v)).isSome := by
      rw [List.find?_isSome]
      exact ⟨q, List.mem_reverse.mpr hq, by simp [registeredNames, List.contains_cons, hq1]⟩
    rcases Option.isSome_iff_exists.mp hsome with ⟨q', hq'⟩
    have hpred := List.find?_some hq'
    rw [hreg] at hpred
    simp [List.contains_cons] at hpred
    rw [hq']
    simp [hpred]

/-- C4 witness: with `resolveAlias` explicitly `false`, the alias `v`
declared by `verbose` is not registered, while the canonical name
resolves to itself. -/
theorem C4_alias_registration_witness :
    (mapGet (createParserContext { wOpts with resolveAlias := some false }).flagLookup "v" =
        some "v" ↔
      ("v" = "v" ∧ "v" ∈ (({ wOpts with resolveAlias := some false } : ParserOption).flags.getD
        []).map Prod.fst)) :=
  (C4_alias_registration { wOpts with resolveAlias := some false }).2 rfl "v" "v"

/-- Reading the defaults map after recording one parameter: only the
parameter's own name is affected, and only when the parameter
contributes an entry. -/
theorem mapGet_recordDefault (m : List (String × JSVal)) (n : String)
    (required : Bool) (dflt : Option JSVal) (k : String) :
    mapGet (recordDefault m n required dflt) k =
      if k = n then
        (match defaultEntrySpec required dflt with
          | some e => some e
          | Option.none => mapGet m k)
      else mapGet m k := by
  cases dflt with
  | some d => simp [recordDefault, defaultEntrySpec, mapGet_mapSet]
  | none =>
      cases required with
      | true => simp [recordDefault, defaultEntrySpec]
      | false => simp [recordDefault, defaultEntrySpec, mapGet_mapSet]

/-- A defaults fold leaves keys alone that no processed parameter is
named after. -/
theorem mapGet_foldl_recordDefault_not_mem {β : Type}
    (required : β → Bool) (dflt : β → Option JSVal)
    (l : List (String × β)) (m : List (String × JSVal)) (k : String)
    (hk : k ∉ l.map Prod.fst) :
    mapGet (l.foldl (fun m p => recordDefault m p.1 (required p.2) (dflt p.2)) m) k =
      mapGet m k := by
  induction l generalizing m with
  | nil => simp
  | cons p rest ih =>
      have hk2 : k ≠ p.1 ∧ k ∉ rest.map Prod.fst := by simpa [not_or] using hk
      rw [List.foldl_cons, ih _ hk2.2, mapGet_recordDefault, if_neg hk2.1]

/-- Reading the defaults map built by a whole loop over parameters with
unique names (JavaScript object keys are unique): the first parameter
with the key determines the entry via `defaultEntrySpec`. -/
theorem mapGet_foldl_recordDefault {β : Type}
    (required : β → Bool) (dflt : β → Option JSVal)
    (l : List (String × β)) (m : List (String × JSVal)) (k : String)
    (hnd : (l.map Prod.fst).Nodup) :
    mapGet (l.foldl (fun m p => recordDefault m p.1 (required p.2) (dflt p.2)) m) k =
      match l.find? (fun p => p.1 == k) with
      | some p =>
        (match defaultEntrySpec (required p.2) (dflt p.2) with
          | some e => some e
          | Option.none => mapGet m k)
      | Option.none => mapGet m k := by
  induction l generalizing m with
  | nil => simp
  | cons p rest ih =>
      have hk2 : p.1 ∉ rest.map Prod.fst ∧ (rest.map Prod.fst).Nodup :=
        List.nodup_cons.mp (by simpa using hnd)
      rw [List.foldl_cons]
      rcases eq_or_ne p.1 k with hpk | hpk
      · subst hpk
        rw [mapGet_foldl_recordDefault_not_mem required dflt rest _ _ hk2.1]
        rw [mapGet_recordDefault, if_pos rfl]
        simp [List.find?]
      · have hbk : (p.1 == k) = false := by simpa using hpk
        rw [ih _ hk2.2, mapGet_recordDefault, if_neg (fun hh => hpk hh.symm)]
        simp only [List.find?, hbk]

/-- C5 counterexample: in `c5Opts` the flag `config` is required and
declares the default `"fallback"`; contrary to the claim it does get a
`flagDefaults` entry, and a parse of an empty token list consequently
succeeds instead of reporting the required flag as missing. -/
theorem C5_required_defaults_counterexample :
    mapGet (createParserContext c5Opts).flagDefaults "config" = some (JSVal.str "fallback")
  ∧ _parse [] (createParserContext c5Opts) =
      ParseOutcome.ok { arguments := [], flags := [("config", JSVal.str "fallback")]
                        unknownFlags := [], unknownArguments := [] } :=
  ⟨rfl, rfl⟩

/-- C5 amended: the context's defaults maps record, for every parameter
with a unique name, the declared default when one is declared (required
or not), the `undefined` placeholder when the parameter is neither
required nor carries a default, and no entry only for required
parameters without a declared default. -/
theorem C5_required_defaults_amended (options : ParserOption)
    (hf : ((options.flags.getD []).map Prod.fst).Nodup)
    (ha : ((options.arguments.getD []).map Prod.fst).Nodup) :
    (∀ k, mapGet (createParserContext options).flagDefaults k =
        ((options.flags.getD []).find? (fun p => p.1 == k)).bind
          (fun p => defaultEntrySpec p.2.required p.2.default))
  ∧ (∀ k, mapGet (createParserContext options).argumentDefaults k =
        ((options.arguments.getD []).find? (fun p => p.1 == k)).bind
          (fun p => defaultEntrySpec p.2.required p.2.default)) := by
  constructor
  · intro k
    show mapGet ((options.flags.getD []).foldl
      (fun m p => recordDefault m p.1 p.2.required p.2.default) []) k = _
    rw [mapGet_foldl_recordDefault FlagParameterOption.required FlagParameterOption.default
      _ _ k hf]
    cases hfind : (options.flags.getD []).find? (fun p => p.1 == k) with
    | some q =>
        cases hd : defaultEntrySpec q.2.required q.2.default with
        | some e => simp [hd]
        | none => simp [hd, mapGet]
    | none => simp [mapGet]
  · intro k
    show mapGet ((options.arguments.getD []).foldl
      (fun m p => recordDefault m p.1 p.2.required p.2.default) []) k = _
    rw [mapGet_foldl_recordDefault ArgumentParameterOption.required ArgumentParameterOption.default
      _ _ k ha]
    cases hfind : (options.arguments.getD []).find? (fun p => p.1 == k) with
    | some q =>
        cases hd : defaultEntrySpec q.2.required q.2.default with
        | some e => simp [hd]
        | none => simp [hd, mapGet]
    | none => simp [mapGet]

/-- C5 amended witness: the required flag `config` with declared default
reads back exactly its declared default from the defaults map. -/
theorem C5_required_defaults_amended_witness :
    mapGet (createParserContext c5Opts).flagDefaults "config" =
      ((c5Opts.flags.getD []).find? (fun p => p.1 == "config")).bind
        (fun p => defaultEntrySpec p.2.required p.2.default) :=
  (C5_required_defaults_amended c5Opts (by decide) (by decide)).1 "config"

/-- When the remaining input is shorter than the remaining multiplicity,
the collection loop consumes every remaining token, in order, resolving
each, and stops at the end of input. -/
theorem collectLoop_exhausts (argv : List String) (resolver : Resolver) (count : Int) :
    ∀ (fuel : Nat) (j : Int) (i : Nat) (acc : List JSVal),
      argv.length - i ≤ fuel → i ≤ argv.length →
      (argv.length : Int) - (i : Int) < count - j →
      collectLoop argv resolver count j i acc =
        (acc ++ (argv.drop i).map (fun a => resolveValue a resolver), argv.length) := by
  intro fuel
  induction fuel with
  | zero =>
      intro j i acc hfuel hi hshort
      have hie : i = argv.length := by omega
      subst hie
      rw [collectLoop, dif_neg (fun hc => absurd hc.2 (lt_irrefl _))]
      simp
  | succ fuel ih =>
      intro j i acc hfuel hi hshort
      rcases Nat.lt_or_ge i argv.length with hlt | hge
      · have hj : j < count := by omega
        rw [collectLoop, dif_pos ⟨hj, hlt⟩]
        rw [ih (j + 1) (i + 1) _ (by omega) (by omega) (by push_cast; omega)]
        have hdrop : argv.drop i = argv[i] :: argv.drop (i + 1) :=
          List.drop_eq_getElem_cons hlt
        have hgd : argv.getD i "" = argv[i] := List.getD_eq_getElem argv "" hlt
        rw [hdrop, hgd]
        simp only [List.map_cons, List.append_assoc, List.singleton_append]
      · have hie : i = argv.length := by omega
        subst hie
        rw [collectLoop, dif_neg (fun hc => absurd hc.2 (lt_irrefl _))]
        simp

/-- C8: a positional spec with integer multiplicity greater than one,
facing fewer remaining tokens than the multiplicity, does not fail: the
stored value is the ordered sequence of exactly the available tokens,
each fed to the spec's resolver, with no padding; the cursor advances by
the number of tokens actually consumed (to the end of input) and the
argument cursor by one. -/
theorem C8_partial_fill
    (st : ParserState) (argv : List String)
    (name : String) (argOpt : ArgumentParameterOption) (n : Int)
    (hlt : st.currentArgIndex < (st.context.options.arguments.getD []).length)
    (hget : (st.context.options.arguments.getD []).get ⟨st.currentArgIndex, hlt⟩ = (name, argOpt))
    (hcount : effectiveCount argOpt.count = CountDecl.num n)
    (hn : 1 < n)
    (hcur : st.currentIndex ≤ argv.length)
    (hshort : (argv.length : Int) - (st.currentIndex : Int) < n) :
    parseArgument st argv = Except.ok { st with
      resultArguments := mapSet st.resultArguments name
        (JSVal.arr ((argv.drop st.currentIndex).map (fun a => resolveValue a argOpt.resolver)))
      currentIndex := argv.length
      currentArgIndex := st.currentArgIndex + 1 } := by
  have hno : ¬ (st.context.options.arguments.isNone ∨
      (st.context.options.arguments.getD []).length ≤ st.currentArgIndex) := by
    rintro (hn1 | hn2)
    · rw [Option.isNone_iff_eq_none] at hn1
      rw [hn1] at hlt
      simp at hlt
    · omega
  simp only [parseArgument]
  rw [dif_neg hno]
  rw [hget]
  simp only [hcount]
  rw [collectLoop_exhausts argv argOpt.resolver n argv.length 0 st.currentIndex []
    (by omega) hcur (by omega)]
  rw [if_neg (by omega : ¬ n = 1)]
  simp

/-- C8 witness: multiplicity two, one token available — the single
token is consumed and stored as a one-element sequence. -/
theorem C8_partial_fill_witness :
    parseArgument c8State ["only.txt"] = Except.ok { c8State with
      resultArguments := mapSet c8State.resultArguments "files"
        (JSVal.arr ((["only.txt"].drop c8State.currentIndex).map
          (fun a => resolveValue a c8ArgOpt.resolver)))
      currentIndex := ["only.txt"].length
      currentArgIndex := c8State.currentArgIndex + 1 } :=
  C8_partial_fill c8State ["only.txt"] "files" c8ArgOpt 2 (by decide) rfl rfl (by decide)
    (by decide) (by decide)

/-- The collection loop never moves the index backwards. -/
theorem collectLoop_snd_ge (argv : List String) (resolver : Resolver) (count : Int) :
    ∀ (fuel : Nat) (j : Int) (i : Nat) (acc : List JSVal),
      argv.length - i ≤ fuel → i ≤ (collectLoop argv resolver count j i acc).2 := by
  intro fuel
  induction fuel with
  | zero =>
      intro j i acc hfuel
      rw [collectLoop]
      by_cases hc : j < count ∧ i < argv.length
      · exact absurd hc.2 (by omega)
      · rw [dif_neg hc]
  | succ fuel ih =>
      intro j i acc hfuel
      rw [collectLoop]
      by_cases hc : j < count ∧ i < argv.length
      · rw [dif_pos hc]
        have h := ih (j + 1) (i + 1) (acc ++ [resolveValue (argv.getD i "") resolver])
          (by omega)
        omega
      · rw [dif_neg hc]

/-- One productive entry into the collection loop advances the index. -/
theorem collectLoop_post (argv : List String) (resolver : Resolver) (count : Int)
    (j : Int) (i : Nat) (acc : List JSVal) (hc : j < count ∧ i < argv.length) :
    i + 1 ≤ (collectLoop argv resolver count j i acc).2 := by
  rw [collectLoop, dif_pos hc]
  exact collectLoop_snd_ge argv resolver count argv.length (j + 1) (i + 1) _ (by omega)

/-- A successful `parseFlag` strictly advances the cursor and leaves the
context untouched. -/
theorem parseFlag_progress (st : ParserState) (argv : List String) (st' : ParserState)
    (h : parseFlag st argv = Except.ok st') :
    st.currentIndex < st'.currentIndex ∧ st'.context = st.context := by
  simp only [parseFlag] at h
  repeat' split at h
  all_goals cases h
  all_goals refine ⟨?_, rfl⟩
  all_goals first
    | exact Nat.lt_succ_self st.currentIndex
    | exact (show st.currentIndex < st.currentIndex + 2 by omega)

/-- A successful `parseArgument` strictly advances the cursor when the
declared multiplicities are positive and a token remains, and leaves
the context untouched. -/
theorem parseArgument_progress (st : ParserState) (argv : List String) (st' : ParserState)
    (hpos : positiveCounts st.context)
    (hcur : st.currentIndex < argv.length)
    (h : parseArgument st argv = Except.ok st') :
    st.currentIndex < st'.currentIndex ∧ st'.context = st.context := by
  simp only [parseArgument] at h
  split at h
  · split at h
    · cases h
    · cases h
      exact ⟨Nat.lt_succ_self st.currentIndex, rfl⟩
    · cases h
      exact ⟨Nat.lt_succ_self st.currentIndex, rfl⟩
  · rename_i hno
    split at h
    · cases h
      exact ⟨hcur, rfl⟩
    · rename_i n heq
      have hmem := List.get_mem (st.context.options.arguments.getD []) st.currentArgIndex
        (Nat.lt_of_not_le (fun hh => hno (Or.inr hh)))
      have hcp := hpos _ hmem
      rw [heq] at hcp
      simp only [countPositive, decide_eq_true_eq] at hcp
      cases h
      refine ⟨?_, rfl⟩
      exact Nat.lt_of_lt_of_le (Nat.lt_succ_self _)
        (collectLoop_post argv _ n 0 st.currentIndex [] ⟨by omega, hcur⟩)

/-- With positive multiplicities, the loop never runs out of fuel as
long as the fuel covers the tokens left of the cursor: every successful
step strictly increases the cursor. -/
theorem parseLoop_adequate (argv : List String) :
    ∀ (fuel : Nat) (st : ParserState) (hasArgs : Bool),
      positiveCounts st.context → argv.length - st.currentIndex ≤ fuel →
      parseLoop argv fuel st hasArgs ≠ ParseOutcome.outOfFuel := by
  intro fuel
  induction fuel with
  | zero =>
      intro st hasArgs hpos hfuel
      rw [parseLoop, if_neg (by omega)]
      split <;> simp
  | succ fuel ih =>
      intro st hasArgs hpos hfuel
      rw [parseLoop]
      by_cases hci : st.currentIndex < argv.length
      · rw [if_pos hci]
        cases hfb : isFlag (argv.getD st.currentIndex "") with
        | true =>
            rw [if_pos hfb]
            by_cases hg : (hasArgs = false ∨
                st.context.options.resolveFlagAfterArgument ≠ some false)
            · rw [if_pos hg]
              cases hpf : parseFlag st argv with
              | error e => simp [hpf]
              | ok st' =>
                  simp only [hpf]
                  obtain ⟨h1, h2⟩ := parseFlag_progress st argv st' hpf
                  exact ih st' hasArgs (by rw [h2]; exact hpos) (by omega)
            · rw [if_neg hg]
              simp
        | false =>
            rw [if_neg (by simpa using hfb)]
            cases hpa : parseArgument st argv with
            | error e => simp [hpa]
            | ok st' =>
                simp only [hpa]
                obtain ⟨h1, h2⟩ := parseArgument_progress st argv st' hpos hci hpa
                exact ih st' true (by rw [h2]; exact hpos) (by omega)
      · rw [if_neg hci]
        split <;> simp

/-- C9: for every token list and every context whose positional
multiplicities are positive integers or the sentinel, parsing
terminates: each successful `parseFlag` step strictly increases the
cursor, each successful `parseArgument` step with a token remaining
does too, and the fueled loop (whose fuel covers the token count) never
exhausts its fuel. -/
theorem C9_parse_terminates (context : ParserContext) (argv : List String)
    (hpos : positiveCounts context) :
    _parse argv context ≠ ParseOutcome.outOfFuel
  ∧ (∀ st st', st.context = context → parseFlag st argv = Except.ok st' →
      st.currentIndex < st'.currentIndex)
  ∧ (∀ st st', st.context = context → st.currentIndex < argv.length →
      parseArgument st argv = Except.ok st' → st.currentIndex < st'.currentIndex) := by
  refine ⟨?_, fun st st' hc h => (parseFlag_progress st argv st' h).1,
    fun st st' hc hcur h =>
      (parseArgument_progress st argv st' (by rw [hc]; exact hpos) hcur h).1⟩
  rw [_parse]
  exact parseLoop_adequate argv _ (createInitialState context) false hpos
    (by simp [createInitialState]; omega)

/-- C9 witness: the witness configuration declares one positional slot
of multiplicity one, so parsing a one-token list terminates. -/
theorem C9_parse_terminates_witness :
    _parse ["file.txt"] wCtx ≠ ParseOutcome.outOfFuel :=
  (C9_parse_terminates wCtx ["file.txt"]
    (by unfold positiveCounts; decide)).1

end Vertin
